import Mathlib

/-!
Shallow embedding of `littlelanguages/deno-lib-text-prettyprint` (the
current functional `mod.ts`, given as `src/unnamed/part_002`).

The document model is the tagged union `Doc`; the TypeScript
`Doc | string` unions accepted by the combinators are embedded as
`Sum Doc String`, with `toDoc` performing the implicit coercion the
source performs via `instanceof`.  The renderer writes to an abstract
asynchronous sink; since the sink accepts writes strictly one at a
time in traversal order, it is embedded as the string of all bytes
written, returned alongside the tracked column (`renderp` returns the
column as the source's promise does).
-/

namespace PrettyPrint

/-- `Doc` from part_002: the seven variants of the document tree.
`NestDoc.offset` is a TypeScript `number` used only in integer
arithmetic, embedded as `Int`. -/
inductive Doc : Type where
  | EmptyDoc : Doc
  | VerticalDoc (docs : List Doc) : Doc
  | IndentDoc (docs : List Doc) : Doc
  | TextDoc (text : String) : Doc
  | PlusDoc (l r : Doc) : Doc
  | PlusPlusDoc (l sep r : Doc) : Doc
  | NestDoc (offset : Int) (doc : Doc) : Doc
deriving Repr, Inhabited

/-- The `d.tag === "EmptyDoc"` test used throughout the source. -/
def Doc.isEmptyDoc : Doc → Bool
  | .EmptyDoc => true
  | _ => false

/-- `text(t)`: a document composed of the literal string `t`. -/
def text (t : String) : Doc := .TextDoc t

/-- `empty`: an empty document. -/
def empty : Doc := .EmptyDoc

/-- `blank`: a document composed of `""`. -/
def blank : Doc := text ""

/-- `comma`: a document composed of `","`. -/
def comma : Doc := text ","

/-- `space`: a document composed of `" "`. -/
def space : Doc := text " "

/-- `toDoc(doc: Doc | string)`: coerces a raw string into a `Text`
document and passes documents through. -/
def toDoc : Sum Doc String → Doc
  | .inl d => d
  | .inr s => text s

/-- `vcat(docs)`: a `VerticalDoc` from a list of documents/strings. -/
def vcat (docs : List (Sum Doc String)) : Doc :=
  .VerticalDoc (docs.map toDoc)

/-- `indent(docs)`: an `IndentDoc` from a list of documents/strings. -/
def indent (docs : List (Sum Doc String)) : Doc :=
  .IndentDoc (docs.map toDoc)

/-- `p(l, r)`: horizontal combination without separator;
`l.tag == "EmptyDoc" ? r : { tag: "PlusDoc", l, r }`. -/
def p (l r : Doc) : Doc :=
  if l.isEmptyDoc then r else .PlusDoc l r

/-- The `sep instanceof Object` branch of `pp`: `sep` is already a
document; collapse Empty / empty-text separators to `p`. -/
def ppD (l r : Doc) : Doc → Doc
  | .EmptyDoc => p l r
  | .TextDoc t => if t = "" then p l r else .PlusPlusDoc l (.TextDoc t) r
  | s => .PlusPlusDoc l s r

/-- `pp(l, r, sep = space)`: horizontal combination with separator.
A string separator `""` is first replaced by `blank` and a nonempty
string separator is coerced with `toDoc`, exactly as the source
recursion does, before the document-separator branch `ppD` runs. -/
def pp (l r : Doc) (sep : Sum Doc String := .inl space) : Doc :=
  match sep with
  | .inr s => if s = "" then ppD l r blank else ppD l r (text s)
  | .inl d => ppD l r d

/-- `hcat(docs)`: left fold of `p` over the coerced list;
empty input yields `empty`, a singleton is returned unwrapped. -/
def hcat (docs : List (Sum Doc String)) : Doc :=
  match docs with
  | [] => empty
  | [d] => toDoc d
  | d :: rest => (rest.map toDoc).foldl p (toDoc d)

/-- `nest(offset, doc)`: nests `doc` from the left margin by
`offset` spaces. -/
def nest (offset : Int) (doc : Sum Doc String) : Doc :=
  .NestDoc offset (toDoc doc)

/-- The loop body of `punctuate`: append `sep` (via `p`) to every
element but the last. -/
def punctAux (sep : Doc) : List Doc → List Doc
  | [] => []
  | [d] => [d]
  | d :: rest => p d sep :: punctAux sep rest

/-- `punctuate(separator, docs)`: zero or one coerced item is returned
as is; otherwise the separator is appended to every item but the
last. -/
def punctuate (separator : Sum Doc String) (docs : List (Sum Doc String)) :
    List Doc :=
  if docs.length = 0 ∨ docs.length = 1 then docs.map toDoc
  else punctAux (toDoc separator) (docs.map toDoc)

/-- The `while` loop of `join`, as recursion over the remaining items.
`isFirst` is true exactly when `index = 0` in the source: a separator
is pushed before every item except the first, and `lastSeparator`
(uncoerced, defaulting to the coerced separator) is pushed before the
last item. -/
def joinAux (docSeparator : Doc) (lastSeparator : Option (Sum Doc String)) :
    List (Sum Doc String) → Bool → List (Sum Doc String)
  | [], _ => []
  | [d], isFirst =>
      (if isFirst then [] else [lastSeparator.getD (.inl docSeparator)]) ++ [d]
  | d :: rest, isFirst =>
      (if isFirst then [] else [.inl docSeparator]) ++
        d :: joinAux docSeparator lastSeparator rest false

/-- `join(docs, separator = space, lastSeparator = undefined)`:
interleaves `separator`, substituting `lastSeparator` before the final
item, and concatenates with `hcat`; no items yields `blank`. -/
def join (docs : List (Sum Doc String))
    (separator : Sum Doc String := .inl space)
    (lastSeparator : Option (Sum Doc String) := none) : Doc :=
  match docs with
  | [] => blank
  | ds => hcat (joinAux (toDoc separator) lastSeparator ds true)

/-- `" ".repeat n` for a natural repeat count. -/
def spaces (n : Nat) : String := String.mk (List.replicate n ' ')

mutual

/-- `renderp(d, leftMargin, offset, writer)` from part_002: renders
one document, returning the string written to the sink and the
resulting column.  The `VerticalDoc`/`IndentDoc` branches call
`renderVertically(d.docs, …)`; here they delegate to `renderLines`
over the raw item list, which skips `EmptyDoc` entries as it walks —
the theorem `renderLines_eq_filtered` below proves this equal to the
source's filter-the-list-first formulation `renderVertically`, which
is defined verbatim after this block. -/
def renderp (d : Doc) (leftMargin offset : Int) : String × Int :=
  match d with
  | .EmptyDoc => ("", offset)
  | .TextDoc t => (t, offset + t.length)
  | .VerticalDoc docs => renderLines docs leftMargin offset
  | .PlusDoc l r =>
      let lr := renderp l leftMargin offset
      let rr := renderp r leftMargin lr.2
      (lr.1 ++ rr.1, rr.2)
  | .PlusPlusDoc l sep r =>
      if l.isEmptyDoc && r.isEmptyDoc then ("", offset)
      else if l.isEmptyDoc then renderp r leftMargin offset
      else if r.isEmptyDoc then renderp l leftMargin offset
      else
        let lr := renderp l leftMargin offset
        let sr := renderp sep leftMargin lr.2
        let rr := renderp r leftMargin sr.2
        (lr.1 ++ sr.1 ++ rr.1, rr.2)
  | .NestDoc off inner =>
      let newLeftMargin := leftMargin + off
      let pad :=
        if offset < newLeftMargin then spaces (newLeftMargin - offset).toNat
        else ""
      let dr := renderp inner newLeftMargin newLeftMargin
      (pad ++ dr.1, dr.2)
  | .IndentDoc docs => renderLines docs offset offset

/-- Skip-as-you-go variant of the `renderVertically` loop, used only
to make the mutual recursion structural: an `EmptyDoc` item is passed
over, and a line break is written after an item exactly when a later
non-`EmptyDoc` item remains. -/
def renderLines (docs : List Doc) (leftMargin offset : Int) : String × Int :=
  match docs with
  | [] => ("", offset)
  | line :: rest =>
      if line.isEmptyDoc then renderLines rest leftMargin offset
      else
        let pad :=
          if offset < leftMargin then spaces (leftMargin - offset).toNat
          else ""
        let lr := renderp line leftMargin (offset + pad.length)
        if rest.any (fun x => !x.isEmptyDoc) then
          let rr := renderLines rest leftMargin 0
          (pad ++ lr.1 ++ "\n" ++ rr.1, rr.2)
        else (pad ++ lr.1, lr.2)

end

/-- The `forEach` loop of `renderVertically` in part_002, over the
already-filtered list `newDocs`: pad with spaces up to the margin when
the column is short of it, render the line from the post-padding
column, and write `"\n"` (resetting the column to 0) after every item
except the last (`idx != newDocs.length - 1`). -/
def renderFiltered (docs : List Doc) (leftMargin offset : Int) : String × Int :=
  match docs with
  | [] => ("", offset)
  | line :: rest =>
      let pad :=
        if offset < leftMargin then spaces (leftMargin - offset).toNat
        else ""
      let lr := renderp line leftMargin (offset + pad.length)
      if rest.isEmpty then (pad ++ lr.1, lr.2)
      else
        let rr := renderFiltered rest leftMargin 0
        (pad ++ lr.1 ++ "\n" ++ rr.1, rr.2)

/-- `renderVertically(docs, leftMargin, offset)` from part_002:
`const newDocs = docs.filter((line) => line.tag !== "EmptyDoc")`
followed by the `forEach` loop over `newDocs`. -/
def renderVertically (docs : List Doc) (leftMargin offset : Int) :
    String × Int :=
  renderFiltered (docs.filter fun line => !line.isEmptyDoc) leftMargin offset


/-- `render(doc, writer)`: one depth-first traversal starting at
margin 0 and column 0; the result is everything written to the sink
(the returned column is discarded, as in the source). -/
def render (doc : Doc) : String := (renderp doc 0 0).1

/-- JavaScript's `" ".repeat(n)`: throws a `RangeError` (here: `none`)
when the repeat count is negative. -/
def repeatSpaces (n : Int) : Option String :=
  if n < 0 then none else some (spaces n.toNat)

mutual

/-- `renderp` with JavaScript's partial `" ".repeat` kept fallible:
every padding run is produced through `repeatSpaces`, so a
negative-length padding request would abort the render with `none`.
Identical to `renderp` in all other respects. -/
def renderpE (d : Doc) (leftMargin offset : Int) : Option (String × Int) :=
  match d with
  | .EmptyDoc => some ("", offset)
  | .TextDoc t => some (t, offset + t.length)
  | .VerticalDoc docs => renderLinesE docs leftMargin offset
  | .PlusDoc l r =>
      (renderpE l leftMargin offset).bind fun lr =>
        (renderpE r leftMargin lr.2).map fun rr => (lr.1 ++ rr.1, rr.2)
  | .PlusPlusDoc l sep r =>
      if l.isEmptyDoc && r.isEmptyDoc then some ("", offset)
      else if l.isEmptyDoc then renderpE r leftMargin offset
      else if r.isEmptyDoc then renderpE l leftMargin offset
      else
        (renderpE l leftMargin offset).bind fun lr =>
          (renderpE sep leftMargin lr.2).bind fun sr =>
            (renderpE r leftMargin sr.2).map fun rr =>
              (lr.1 ++ sr.1 ++ rr.1, rr.2)
  | .NestDoc off inner =>
      let newLeftMargin := leftMargin + off
      (if offset < newLeftMargin then repeatSpaces (newLeftMargin - offset)
       else some "").bind fun pad =>
        (renderpE inner newLeftMargin newLeftMargin).map fun dr =>
          (pad ++ dr.1, dr.2)
  | .IndentDoc docs => renderLinesE docs offset offset

/-- The fallible counterpart of `renderLines`. -/
def renderLinesE (docs : List Doc) (leftMargin offset : Int) :
    Option (String × Int) :=
  match docs with
  | [] => some ("", offset)
  | line :: rest =>
      if line.isEmptyDoc then renderLinesE rest leftMargin offset
      else
        (if offset < leftMargin then repeatSpaces (leftMargin - offset)
         else some "").bind fun pad =>
          (renderpE line leftMargin (offset + pad.length)).bind fun lr =>
            if rest.any (fun x => !x.isEmptyDoc) then
              (renderLinesE rest leftMargin 0).map fun rr =>
                (pad ++ lr.1 ++ "\n" ++ rr.1, rr.2)
            else some (pad ++ lr.1, lr.2)

end

/-- The expected shape of an aligned block's continuation lines, as
the spec states it: every subsequent line starts with a line break
followed by `n` spaces, so it begins at column `n`. -/
def alignedTail (n : Nat) : List String -> String
  | [] => ""
  | u :: us => "\n" ++ spaces n ++ u ++ alignedTail n us

/-- The item list `join` is claimed to build, written from the spec's
words: the separator interleaved between consecutive items, with the
last separator replaced by the (defaulted) last separator.  Spec-side
definition, for comparison with `joinAux`. -/
def joinSpecList (sep lsep : Doc) : List (Sum Doc String) -> List (Sum Doc String)
  | [] => []
  | [d] => [d]
  | [d, e] => [d, .inl lsep, e]
  | d :: rest => d :: .inl sep :: joinSpecList sep lsep rest

theorem isEmpty_filter_eq_not_any (q : Doc → Bool) (l : List Doc) :
    (l.filter q).isEmpty = !(l.any q) := by
  induction l with
  | nil => rfl
  | cons a l ih => cases hqa : q a <;> simp [List.filter, hqa, ih]

theorem renderLines_eq_filtered (docs : List Doc) (leftMargin offset : Int) :
    renderLines docs leftMargin offset =
      renderFiltered (docs.filter fun line => !line.isEmptyDoc)
        leftMargin offset := by
  induction docs generalizing offset with
  | nil => rfl
  | cons line rest ih =>
    by_cases h : line.isEmptyDoc
    · simp [renderLines, renderFiltered, h, List.filter, ih]
    · have hfe : ((rest.filter fun l => !l.isEmptyDoc).isEmpty) =
          !(rest.any fun x => !x.isEmptyDoc) :=
        isEmpty_filter_eq_not_any _ rest
      rcases hany : rest.any fun x => !x.isEmptyDoc with _ | _
      · have : (rest.filter fun l => !l.isEmptyDoc).isEmpty = true := by
          rw [hfe, hany]; rfl
        simp [renderLines, renderFiltered, h, List.filter, hany, this]
      · have : (rest.filter fun l => !l.isEmptyDoc).isEmpty = false := by
          rw [hfe, hany]; rfl
        simp only [renderLines, renderFiltered, h, List.filter, hany, this,
          Bool.false_eq_true, if_false, if_true, ite_false, ite_true]
        simp [ih]

/-- `renderp` on a `VerticalDoc` is the source's `renderVertically`. -/
theorem renderp_vertical (docs : List Doc) (leftMargin offset : Int) :
    renderp (.VerticalDoc docs) leftMargin offset =
      renderVertically docs leftMargin offset := by
  rw [renderp, renderVertically, renderLines_eq_filtered]

/-- `renderp` on an `IndentDoc` is `renderVertically` with both the
margin and the starting offset set to the current offset. -/
theorem renderp_indent (docs : List Doc) (leftMargin offset : Int) :
    renderp (.IndentDoc docs) leftMargin offset =
      renderVertically docs offset offset := by
  rw [renderp, renderVertically, renderLines_eq_filtered]

mutual

theorem renderpE_eq_renderp :
    ∀ (d : Doc) (leftMargin offset : Int),
      renderpE d leftMargin offset = some (renderp d leftMargin offset)
  | .EmptyDoc, _, _ => rfl
  | .TextDoc _, _, _ => rfl
  | .VerticalDoc docs, lm, off => by
      rw [renderpE, renderp, renderLinesE_eq_renderLines docs lm off]
  | .PlusDoc l r, lm, off => by
      have Hl := renderpE_eq_renderp l lm off
      have Hr := renderpE_eq_renderp r lm (renderp l lm off).2
      rw [renderpE, renderp]
      simp [Hl, Hr]
  | .PlusPlusDoc l sep r, lm, off => by
      have Hl := renderpE_eq_renderp l lm off
      have Hr0 := renderpE_eq_renderp r lm off
      have Hs := renderpE_eq_renderp sep lm (renderp l lm off).2
      have Hr2 := renderpE_eq_renderp r lm
        (renderp sep lm (renderp l lm off).2).2
      rw [renderpE, renderp]
      split_ifs <;> simp [Hl, Hr0, Hs, Hr2]
  | .NestDoc off inner, lm, col => by
      have Hi := renderpE_eq_renderp inner (lm + off) (lm + off)
      rw [renderpE, renderp]
      have hrep : (if col < lm + off then repeatSpaces (lm + off - col)
          else some "") =
          some (if col < lm + off then spaces (lm + off - col).toNat
            else "") := by
        by_cases h : col < lm + off
        · simp only [h, if_true, repeatSpaces,
            if_neg (by omega : ¬ lm + off - col < 0)]
        · simp [h]
      simp [hrep, Hi]
  | .IndentDoc docs, lm, off => by
      rw [renderpE, renderp, renderLinesE_eq_renderLines docs off off]

theorem renderLinesE_eq_renderLines :
    ∀ (docs : List Doc) (leftMargin offset : Int),
      renderLinesE docs leftMargin offset =
        some (renderLines docs leftMargin offset)
  | [], _, _ => rfl
  | line :: rest, lm, off => by
      have Hskip := renderLinesE_eq_renderLines rest lm off
      have Hrest := renderLinesE_eq_renderLines rest lm 0
      have Hline : ∀ o, renderpE line lm o = some (renderp line lm o) :=
        fun o => renderpE_eq_renderp line lm o
      rw [renderLinesE, renderLines]
      by_cases he : line.isEmptyDoc
      · simp [he, Hskip]
      · by_cases hpad : off < lm
        · have hrep : repeatSpaces (lm - off) = some (spaces (lm - off).toNat) := by
            simp only [repeatSpaces, if_neg (by omega : ¬ lm - off < 0)]
          (simp [he, hpad, hrep, Hline, Hrest]; split) <;> rfl
        · (simp [he, hpad, Hline, Hrest]; split) <;> rfl

end

theorem isEmptyDoc_iff (d : Doc) : d.isEmptyDoc = true ↔ d = .EmptyDoc := by
  cases d <;> simp [Doc.isEmptyDoc]

/-- Claim C1: `render(d, sink)` writes exactly the characters of the
depth-first traversal of `d` (the output of `renderp` from margin 0,
column 0) and appends no implicit trailing line terminator:
`vcat(["Hello", "World"])` renders to `"Hello\nWorld"`, whose last
character is `d`, not a newline. -/
theorem claim_C1_render_depth_first_no_trailing_newline :
    (∀ d : Doc, render d = (renderp d 0 0).1) ∧
    render (vcat [.inr "Hello", .inr "World"]) = "Hello\nWorld" ∧
    (render (vcat [.inr "Hello", .inr "World"])).data.getLast? = some 'd' :=
  ⟨fun _ => rfl, rfl, rfl⟩

/-- Claim C2: rendering `Nest(offset, inner)` at `(leftMargin, column)`
computes `newMargin = leftMargin + offset`, emits exactly
`newMargin − column` spaces when `column < newMargin` and nothing
otherwise, and renders `inner` with `newMargin` as both margin and
starting column — also when `column > newMargin`. -/
theorem claim_C2_nest_resets_column_to_margin (off : Int) (inner : Doc)
    (lm col : Int) :
    (col < lm + off →
      renderp (.NestDoc off inner) lm col =
        (spaces (lm + off - col).toNat ++
            (renderp inner (lm + off) (lm + off)).1,
          (renderp inner (lm + off) (lm + off)).2)) ∧
    (¬ col < lm + off →
      renderp (.NestDoc off inner) lm col =
        renderp inner (lm + off) (lm + off)) := by
  constructor <;> intro h <;> simp only [renderp] <;> simp [h]

/-- Witness for C2 at concrete inputs: `nest 5` from column 2 pads
with 3 spaces; `nest (-4)` from column 9 pads nothing and restarts
the tracked column at the (negative) new margin. -/
theorem claim_C2_witness :
    (renderp (.NestDoc 5 (text "x")) 0 2 =
      (spaces ((0 : Int) + 5 - 2).toNat ++
          (renderp (text "x") (0 + 5) (0 + 5)).1,
        (renderp (text "x") (0 + 5) (0 + 5)).2)) ∧
    renderp (.NestDoc (-4) (text "x")) 0 9 =
      renderp (text "x") (0 + (-4)) (0 + (-4)) :=
  ⟨(claim_C2_nest_resets_column_to_margin 5 (text "x") 0 2).1 (by decide),
   (claim_C2_nest_resets_column_to_margin (-4) (text "x") 0 9).2 (by decide)⟩

/-- Claim C4 counterexample: the smart constructors do NOT enforce the full
Empty-collapse invariant at construction time.  `p(l, r)` collapses
only a left Empty operand: `p(text "a", empty)` is the node
`Plus(text "a", Empty)`, not `text "a"`; and `pp(empty, text "b", comma)`
keeps its Empty left operand rather than collapsing to `text "b"`. -/
theorem claim_C4_counterexample :
    p (text "a") empty ≠ text "a" ∧
    pp empty (text "b") (.inl comma) ≠ text "b" := by
  constructor <;> simp [p, pp, ppD, text, empty, comma, Doc.isEmptyDoc]

/-- Claim C4 amended: `p(l, r)` returns `r` unchanged when `l` is Empty but
builds `Plus(l, r)` whenever `l` is not Empty (a right Empty operand
is kept); `pp(l, r, sep)` returns `p(l, r)` when `sep` is Empty,
`Text("")` or the raw string `""`, and otherwise builds
`PlusSep(l, sep, r)` without collapsing Empty operands — that
collapse happens at render time. -/
theorem claim_C4_amended_smart_constructors :
    (∀ r, p empty r = r) ∧
    (∀ l r, l.isEmptyDoc = false → p l r = .PlusDoc l r) ∧
    (∀ l r, pp l r (.inl empty) = p l r) ∧
    (∀ l r, pp l r (.inl blank) = p l r) ∧
    (∀ l r, pp l r (.inr "") = p l r) ∧
    (∀ l r t, t ≠ "" → pp l r (.inr t) = .PlusPlusDoc l (text t) r) := by
  refine ⟨fun r => rfl, fun l r h => ?_, fun l r => rfl, fun l r => rfl,
    fun l r => rfl, fun l r t h => ?_⟩
  · simp [p, h]
  · simp [pp, ppD, text, h]

/-- Witness for C4 amended: non-Empty operands at concrete inputs. -/
theorem claim_C4_amended_witness :
    p (text "a") (text "b") = .PlusDoc (text "a") (text "b") ∧
    pp (text "a") (text "b") (.inr ",") =
      .PlusPlusDoc (text "a") (text ",") (text "b") :=
  ⟨claim_C4_amended_smart_constructors.2.1 _ _ rfl,
   claim_C4_amended_smart_constructors.2.2.2.2.2 _ _ "," (by decide)⟩

/-- Claim C5: rendering `PlusSep(l, sep, r)`: both operands Empty — nothing
written, column unchanged; exactly one Empty — only the other side is
rendered, the separator suppressed; otherwise `l`, `sep`, `r` render
sequentially, each starting from the column the previous one
produced. -/
theorem claim_C5_plussep_render (l sep r : Doc) (lm off : Int) :
    (renderp (.PlusPlusDoc .EmptyDoc sep .EmptyDoc) lm off = ("", off)) ∧
    (renderp (.PlusPlusDoc .EmptyDoc sep r) lm off = renderp r lm off) ∧
    (renderp (.PlusPlusDoc l sep .EmptyDoc) lm off = renderp l lm off) ∧
    (l.isEmptyDoc = false → r.isEmptyDoc = false →
      renderp (.PlusPlusDoc l sep r) lm off =
        ((renderp l lm off).1 ++
            (renderp sep lm (renderp l lm off).2).1 ++
            (renderp r lm (renderp sep lm (renderp l lm off).2).2).1,
          (renderp r lm (renderp sep lm (renderp l lm off).2).2).2)) := by
  refine ⟨?_, ?_, ?_, fun hl hr => ?_⟩
  · simp [renderp, Doc.isEmptyDoc]
  · cases r <;> simp [renderp, Doc.isEmptyDoc]
  · cases l <;> simp [renderp, Doc.isEmptyDoc]
  · simp [renderp, hl, hr]

/-- Witness for C5's sequential branch at concrete operands. -/
theorem claim_C5_witness :
    renderp (.PlusPlusDoc (text "a") space (text "b")) 0 0 =
      ((renderp (text "a") 0 0).1 ++
          (renderp space 0 (renderp (text "a") 0 0).2).1 ++
          (renderp (text "b") 0
            (renderp space 0 (renderp (text "a") 0 0).2).2).1,
        (renderp (text "b") 0
          (renderp space 0 (renderp (text "a") 0 0).2).2).2) :=
  (claim_C5_plussep_render (text "a") space (text "b") 0 0).2.2.2 rfl rfl

/-- Claim C3: for `Vertical(items)` and `Indent(items)` the renderer first
removes entries whose variant is exactly Empty, then inserts a line
break after every remaining item except the last (`renderFiltered`);
so trailing Empty entries add no blank lines, while an empty-string
Text entry survives the filter and occupies a blank line. -/
theorem claim_C3_vertical_filters_empty :
    (∀ (docs : List Doc) (lm off : Int),
      renderp (.VerticalDoc docs) lm off = renderVertically docs lm off ∧
      renderp (.IndentDoc docs) lm off = renderVertically docs off off ∧
      renderVertically docs lm off =
        renderFiltered (docs.filter fun d => !d.isEmptyDoc) lm off ∧
      renderp (.VerticalDoc (docs ++ [.EmptyDoc])) lm off =
        renderp (.VerticalDoc docs) lm off) ∧
    render (vcat [.inl blank, .inr "World"]) = "\nWorld" ∧
    render (vcat [.inr "Hello", .inl empty, .inl empty]) = "Hello" := by
  refine ⟨fun docs lm off =>
    ⟨renderp_vertical docs lm off, renderp_indent docs lm off, rfl, ?_⟩,
    rfl, rfl⟩
  rw [renderp_vertical, renderp_vertical]
  unfold renderVertically
  rw [List.filter_append]
  simp [List.filter, Doc.isEmptyDoc]

/-- Claim C6: at render level, Empty is a two-sided identity for `p`: both
the output characters and the final column agree with rendering `d`
alone, at every margin and starting column; the same holds for the
full `render` entry point. -/
theorem claim_C6_empty_identity_for_p (d : Doc) (lm off : Int) :
    renderp (p empty d) lm off = renderp d lm off ∧
    renderp (p d empty) lm off = renderp d lm off ∧
    render (p empty d) = render d ∧
    render (p d empty) = render d := by
  have hright : ∀ lm off : Int, renderp (p d empty) lm off =
      renderp d lm off := by
    intro lm off
    by_cases hd : d.isEmptyDoc
    · rw [(isEmptyDoc_iff d).mp hd]
      rfl
    · show renderp (if d.isEmptyDoc then empty else .PlusDoc d empty) lm off = _
      rw [if_neg (by simp [hd])]
      simp [renderp, Doc.isEmptyDoc]
  exact ⟨rfl, hright lm off, rfl, by unfold render; rw [hright]⟩

theorem renderLines_text_last (t : String) (lm off : Int) :
    renderLines [text t] lm off =
      ((if off < lm then spaces (lm - off).toNat else "") ++ t,
        off + ((if off < lm then spaces (lm - off).toNat else "") :
          String).length + t.length) := rfl

theorem renderLines_text_step (t : String) (rest : List Doc) (lm off : Int)
    (hrest : rest.any (fun x => !x.isEmptyDoc) = true) :
    renderLines (text t :: rest) lm off =
      ((if off < lm then spaces (lm - off).toNat else "") ++ t ++ "\n" ++
          (renderLines rest lm 0).1,
        (renderLines rest lm 0).2) := by
  show (let pad := if off < lm then spaces (lm - off).toNat else ""
        let lr := renderp (text t) lm (off + pad.length)
        if rest.any (fun x => !x.isEmptyDoc) then
          let rr := renderLines rest lm 0
          (pad ++ lr.1 ++ "\n" ++ rr.1, rr.2)
        else (pad ++ lr.1, lr.2)) = _
  simp only [hrest, if_true]
  rfl

theorem pad_from_zero (n : Nat) :
    (if (0 : Int) < (n : Int) then spaces ((n : Int) - 0).toNat else "") =
      spaces n := by
  by_cases h : (0 : Int) < (n : Int)
  · simp [h]
  · have hn : n = 0 := by omega
    subst hn
    simp [spaces]

theorem renderLines_texts_zero (n : Nat) :
    ∀ (ts : List String) (t : String),
      (renderLines ((t :: ts).map text) (n : Int) 0).1 =
        spaces n ++ t ++ alignedTail n ts := by
  intro ts
  induction ts with
  | nil =>
    intro t
    rw [show (([t] : List String).map text) = [text t] from rfl,
      renderLines_text_last]
    simp only [pad_from_zero]
    simp [alignedTail]
  | cons u us ih =>
    intro t
    have hany : ((u :: us).map text).any (fun x => !x.isEmptyDoc) = true := rfl
    rw [show ((t :: u :: us).map text) = text t :: (u :: us).map text from rfl,
      renderLines_text_step _ _ _ _ hany]
    simp only [pad_from_zero]
    rw [ih u]
    simp [alignedTail, String.append_assoc]

theorem renderLines_texts_at_margin (n : Nat) (t : String) (ts : List String) :
    (renderLines ((t :: ts).map text) (n : Int) (n : Int)).1 =
      t ++ alignedTail n ts := by
  have hpad : (if (n : Int) < (n : Int) then
      spaces ((n : Int) - (n : Int)).toNat else "") = "" := by simp
  cases ts with
  | nil =>
    rw [show (([t] : List String).map text) = [text t] from rfl,
      renderLines_text_last]
    simp [hpad, alignedTail]
  | cons u us =>
    have hany : ((u :: us).map text).any (fun x => !x.isEmptyDoc) = true := rfl
    rw [show ((t :: u :: us).map text) = text t :: (u :: us).map text from rfl,
      renderLines_text_step _ _ _ _ hany]
    simp only [hpad]
    rw [renderLines_texts_zero n us u]
    simp [alignedTail, String.append_assoc]

/-- Claim C7: when a single-line text prefix of length `n` is `hcat`ed with
an indented block, the block's first line continues right after the
prefix (at column `n`) and every subsequent line starts with a break
followed by exactly `n` spaces; concretely,
`hcat(["abc", indent(["hello","to","world"]), "xyz"])` renders to
`"abchello\n   to\n   worldxyz"`. -/
theorem claim_C7_indent_alignment :
    (∀ (s t : String) (ts : List String),
      render (hcat [.inr s, .inl (indent ((t :: ts).map Sum.inr))]) =
        s ++ (t ++ alignedTail s.length ts)) ∧
    render (hcat [.inr "abc",
        .inl (indent [.inr "hello", .inr "to", .inr "world"]), .inr "xyz"]) =
      "abchello\n   to\n   worldxyz" := by
  refine ⟨fun s t ts => ?_, rfl⟩
  have hmap : ((t :: ts).map Sum.inr).map toDoc = (t :: ts).map text := by
    rw [List.map_map]
    rfl
  have h1 : hcat [.inr s, .inl (indent ((t :: ts).map Sum.inr))] =
      .PlusDoc (text s) (.IndentDoc ((t :: ts).map text)) := by
    rw [show hcat [.inr s, .inl (indent ((t :: ts).map Sum.inr))] =
      .PlusDoc (text s)
        (.IndentDoc (((t :: ts).map Sum.inr).map toDoc)) from rfl, hmap]
  rw [show render (hcat [.inr s, .inl (indent ((t :: ts).map Sum.inr))]) =
    (renderp (hcat [.inr s, .inl (indent ((t :: ts).map Sum.inr))]) 0 0).1
    from rfl, h1]
  have h2 : (renderp (.PlusDoc (text s)
      (.IndentDoc ((t :: ts).map text))) 0 0).1 =
      s ++ (renderLines ((t :: ts).map text) (0 + (s.length : Int))
        (0 + (s.length : Int))).1 := rfl
  rw [h2, show ((0 : Int) + (s.length : Int)) = (s.length : Int)
    from zero_add _]
  exact congrArg (s ++ ·) (renderLines_texts_at_margin s.length t ts)

theorem hcat_congr (ds1 ds2 : List (Sum Doc String))
    (h : ds1.map toDoc = ds2.map toDoc) : hcat ds1 = hcat ds2 := by
  cases ds1 with
  | nil =>
    cases ds2 with
    | nil => rfl
    | cons b bs => simp at h
  | cons a as =>
    cases ds2 with
    | nil => simp at h
    | cons b bs =>
      simp only [List.map, List.cons.injEq] at h
      obtain ⟨hab, hrest⟩ := h
      cases as with
      | nil =>
        cases bs with
        | nil => simpa [hcat] using hab
        | cons c cs => simp at hrest
      | cons c cs =>
        cases bs with
        | nil => simp at hrest
        | cons e es =>
          simp only [hcat]
          rw [hab, hrest]

theorem joinAux_false (A : Doc) (L : Option (Sum Doc String))
    (d : Sum Doc String) (ds : List (Sum Doc String)) :
    joinAux A L (d :: ds) false =
      (if ds.isEmpty then L.getD (.inl A) else .inl A) ::
        joinAux A L (d :: ds) true := by
  cases ds <;> rfl

theorem joinAux_maps_to_spec (sep : Sum Doc String)
    (lsep : Option (Sum Doc String)) :
    ∀ ds : List (Sum Doc String), ds ≠ [] →
      (joinAux (toDoc sep) lsep ds true).map toDoc =
        (joinSpecList (toDoc sep) (toDoc (lsep.getD sep)) ds).map toDoc := by
  intro ds
  induction ds with
  | nil => intro h; exact absurd rfl h
  | cons d rest ih =>
    intro _
    cases rest with
    | nil => rfl
    | cons e rest2 =>
      have hstep : joinAux (toDoc sep) lsep (d :: e :: rest2) true =
          d :: joinAux (toDoc sep) lsep (e :: rest2) false := rfl
      rw [hstep, joinAux_false]
      cases rest2 with
      | nil => cases lsep <;> simp [joinAux, joinSpecList, toDoc]
      | cons f rest3 =>
        have ihh := ih (List.cons_ne_nil _ _)
        simp only [List.isEmpty, joinSpecList, List.map, Bool.false_eq_true,
          if_false, List.cons.injEq, true_and]
        exact ihh

/-- Claim C8: `join([], sep, lastSep)` is `blank` for any separators; for a
non-empty list, `join` produces `hcat` of the items with the separator
interleaved between consecutive items and the last separator (when
given, else the separator) substituted immediately before the final
item, as described by `joinSpecList`; concretely,
`join(["a","b","c"], ", ", " or ")` renders to `"a, b or c"`. -/
theorem claim_C8_join_interleaves :
    (∀ (sep : Sum Doc String) (lsep : Option (Sum Doc String)),
      join [] sep lsep = blank) ∧
    (∀ (docs : List (Sum Doc String)) (sep : Sum Doc String)
        (lsep : Option (Sum Doc String)), docs ≠ [] →
      join docs sep lsep =
        hcat (joinSpecList (toDoc sep) (toDoc (lsep.getD sep)) docs)) ∧
    render (join [.inr "a", .inr "b", .inr "c"] (.inr ", ")
      (some (.inr " or "))) = "a, b or c" := by
  refine ⟨fun sep lsep => rfl, fun docs sep lsep h => ?_, rfl⟩
  cases docs with
  | nil => exact absurd rfl h
  | cons d rest =>
    exact hcat_congr _ _ (joinAux_maps_to_spec sep lsep (d :: rest) h)

/-- Witness for C8's non-empty branch at a concrete list. -/
theorem claim_C8_witness :
    join [.inr "x", .inr "y"] (.inl comma) none =
      hcat (joinSpecList (toDoc (.inl comma))
        (toDoc ((none : Option (Sum Doc String)).getD (.inl comma)))
        [.inr "x", .inr "y"]) :=
  claim_C8_join_interleaves.2.1 [.inr "x", .inr "y"] (.inl comma) none
    (List.cons_ne_nil _ _)

/-- Claim C9: the renderer never requests a negative-length padding run:
`renderpE`, which models JavaScript's `" ".repeat` as failing on a
negative count, succeeds on every document (any `Nest` offset, any
margin and column, negative included) and agrees with `renderp`; and
whenever the `Nest` guard `column < leftMargin + offset` passes, the
requested padding length is strictly positive. -/
theorem claim_C9_no_negative_padding :
    (∀ (d : Doc) (leftMargin offset : Int),
      renderpE d leftMargin offset = some (renderp d leftMargin offset)) ∧
    (∀ lm off col : Int, col < lm + off →
      repeatSpaces (lm + off - col) =
        some (spaces (lm + off - col).toNat) ∧
      0 < (lm + off - col).toNat) := by
  refine ⟨renderpE_eq_renderp, fun lm off col h => ⟨?_, by omega⟩⟩
  simp only [repeatSpaces, if_neg (by omega : ¬ lm + off - col < 0)]

/-- Witness for C9's padding-positivity branch. -/
theorem claim_C9_witness :
    repeatSpaces ((0 : Int) + 2 - 1) =
      some (spaces ((0 : Int) + 2 - 1).toNat) ∧
    0 < ((0 : Int) + 2 - 1).toNat :=
  claim_C9_no_negative_padding.2 0 2 1 (by decide)

theorem punctAux_length (s : Doc) :
    ∀ ds : List Doc, (punctAux s ds).length = ds.length := by
  intro ds
  induction ds with
  | nil => rfl
  | cons d rest ih =>
    cases rest with
    | nil => rfl
    | cons e es => simpa [punctAux] using ih

theorem punctAux_getElem (s : Doc) :
    ∀ (ds : List Doc) (i : Nat), i + 1 < ds.length →
      (punctAux s ds)[i]? = (ds[i]?).map (fun d => p d s) := by
  intro ds
  induction ds with
  | nil => intro i h; simp at h
  | cons d rest ih =>
    intro i h
    cases rest with
    | nil => simp at h
    | cons e es =>
      cases i with
      | zero => simp [punctAux]
      | succ j =>
        have h2 : j + 1 < (e :: es).length := by
          simp only [List.length_cons] at h ⊢
          omega
        simp only [punctAux, List.getElem?_cons_succ]
        exact ih j h2

theorem punctAux_getLast (s : Doc) :
    ∀ ds : List Doc, ds ≠ [] →
      (punctAux s ds).getLast? = ds.getLast? := by
  intro ds
  induction ds with
  | nil => intro h; exact absurd rfl h
  | cons d rest ih =>
    intro _
    cases rest with
    | nil => rfl
    | cons e es =>
      have h1 : punctAux s (d :: e :: es) = p d s :: punctAux s (e :: es) :=
        rfl
      obtain ⟨y, ys, hys⟩ : ∃ y ys, punctAux s (e :: es) = y :: ys := by
        cases es <;> exact ⟨_, _, rfl⟩
      rw [h1, hys, List.getLast?_cons_cons, ← hys,
        ih (List.cons_ne_nil _ _), List.getLast?_cons_cons]

/-- Claim C10: `punctuate(separator, docs)` returns a list of the same
length as `docs` whose last element is the coerced last input
unchanged and whose every other element is the corresponding input
with the separator appended via `p` (the input list itself is left
untouched — the embedding is pure, as the source only reads `docs`). -/
theorem claim_C10_punctuate_shape (sep : Sum Doc String)
    (docs : List (Sum Doc String)) :
    (punctuate sep docs).length = docs.length ∧
    (∀ i : Nat, i + 1 < docs.length →
      (punctuate sep docs)[i]? =
        (docs[i]?).map fun d => p (toDoc d) (toDoc sep)) ∧
    (docs ≠ [] →
      (punctuate sep docs).getLast? = (docs.getLast?).map toDoc) := by
  by_cases hlen : docs.length = 0 ∨ docs.length = 1
  · have hp : punctuate sep docs = docs.map toDoc := by
      simp only [punctuate]
      rw [if_pos hlen]
    refine ⟨by rw [hp]; simp, fun i hi => ?_, fun hne => ?_⟩
    · rcases hlen with h0 | h1 <;> omega
    · rw [hp, List.getLast?_map]
  · have hp : punctuate sep docs = punctAux (toDoc sep) (docs.map toDoc) := by
      simp only [punctuate]
      rw [if_neg hlen]
    refine ⟨?_, fun i hi => ?_, fun hne => ?_⟩
    · rw [hp, punctAux_length, List.length_map]
    · rw [hp, punctAux_getElem _ _ i (by simpa using hi), List.getElem?_map,
        Option.map_map]
      rfl
    · rw [hp, punctAux_getLast _ _ (by simpa using hne), List.getLast?_map]

/-- Witness for C10 at a concrete two-element list. -/
theorem claim_C10_witness :
    (punctuate (.inr ",") [.inr "a", .inr "b"])[0]? =
      (([.inr "a", .inr "b"] : List (Sum Doc String))[0]?).map
        (fun d => p (toDoc d) (toDoc (.inr ","))) ∧
    (punctuate (.inr ",") [.inr "a", .inr "b"]).getLast? =
      (([.inr "a", .inr "b"] : List (Sum Doc String)).getLast?).map toDoc :=
  ⟨(claim_C10_punctuate_shape (.inr ",") [.inr "a", .inr "b"]).2.1 0
      (by decide),
   (claim_C10_punctuate_shape (.inr ",") [.inr "a", .inr "b"]).2.2
      (List.cons_ne_nil _ _)⟩

end PrettyPrint
